import Mathlib

/-!
Verification development for the treemap aggregation logic of
`src/frontend/components/TreemapChart.tsx` (the `treemapData` memo).

The embedding models:
  * cell values returned by `record.getCellValue` as the inductive `CellValue`
    (a JS value can be `null`, a number, a string, a structured tag object
    carrying a `name` and an optional `color`, or some other value);
  * a record as its two accessor functions `getCellValueAsString` and
    `getCellValue`, keyed by field id;
  * the plain JS objects used as accumulators (`aggregated`, `groups`) as
    insertion-ordered association lists with string keys (`jsGet`, `jsSet`);
  * `Object.entries`, which by the ECMAScript ordinary own-property-key order
    lists keys that are array indices (canonical numeric strings below
    2^32 - 1) first, in ascending numeric order, followed by the remaining
    string keys in insertion order (`jsEntries`);
  * the external `colorUtils.getHexForColor` as an abstract parameter
    `getHexForColor : String → Option String`.

JS numbers are modelled as integers; overflow and floating point play no role
in the claims under study.
-/

/-- A cell value as returned by `record.getCellValue`:
`missing` is JS `null`/`undefined`, `num` a number, `str` a string,
`tag name color` an object that has a `name` property (and possibly a
`color` property, which may itself be the empty string, i.e. falsy), and
`other` any remaining JS value (an object without `name`, a boolean, ...). -/
inductive CellValue : Type where
  | missing : CellValue
  | num : Int → CellValue
  | str : String → CellValue
  | tag : String → Option String → CellValue
  | other : CellValue
deriving DecidableEq, Repr

/-- A record, reduced to the two accessors the component calls.
Both are keyed by a field id (a string). -/
structure AirRecord : Type where
  getCellValueAsString : String → String
  getCellValue : String → CellValue

/-- The output node shape, `interface TreemapNode` of the source:
`{id: string, value?: number, color?: string, children?: TreemapNode[]}`. -/
inductive TreemapNode : Type where
  | node : String → Option Int → Option String → Option (List TreemapNode) → TreemapNode

def TreemapNode.idOf : TreemapNode → String
  | .node i _ _ _ => i

def TreemapNode.valueOf : TreemapNode → Option Int
  | .node _ v _ _ => v

def TreemapNode.colorOf : TreemapNode → Option String
  | .node _ _ c _ => c

def TreemapNode.childrenOf : TreemapNode → Option (List TreemapNode)
  | .node _ _ _ ch => ch

/-- The children list of a node, `[]` when the `children` key is absent. -/
def TreemapNode.kids (t : TreemapNode) : List TreemapNode :=
  (t.childrenOf).getD []

/-- Lookup in a JS object modelled as an insertion-ordered association list
(`obj[key]`, yielding `undefined` as `none`). -/
def jsGet {α : Type} : List (String × α) → String → Option α
  | [], _ => none
  | (k, v) :: m, key => if k = key then some v else jsGet m key

/-- Assignment `obj[key] = v` on a JS object: an existing key keeps its
position, a new key is appended. -/
def jsSet {α : Type} : List (String × α) → String → α → List (String × α)
  | [], key, v => [(key, v)]
  | (k, w) :: m, key, v =>
    if k = key then (k, v) :: m else (k, w) :: jsSet m key v

/-- The keys of a JS object, in insertion order. -/
def jsKeys {α : Type} (m : List (String × α)) : List String :=
  m.map Prod.fst

/-- The decimal value of a digit character, `none` for non-digits. -/
def digitVal (c : Char) : Option Nat :=
  if 48 ≤ c.toNat ∧ c.toNat ≤ 57 then some (c.toNat - 48) else none

/-- Reads a digit string into a number, `none` on any non-digit. -/
def digitsToNat : List Char → Nat → Option Nat
  | [], acc => some acc
  | c :: cs, acc =>
    match digitVal c with
    | some d => digitsToNat cs (acc * 10 + d)
    | none => none

/-- Whether a string is an ECMAScript array index: the canonical decimal
representation of an integer `n` with `0 ≤ n < 2^32 - 1` (all digits, no
leading zero unless the string is exactly `"0"`). Such keys come first
(numerically sorted) in `Object.entries`. -/
def isArrayIndexKey (s : String) : Bool :=
  match s.data with
  | [] => false
  | c :: cs =>
    (decide (c ≠ '0') || decide (cs = [])) &&
      (match digitsToNat (c :: cs) 0 with
       | some n => decide (n < 4294967295)
       | none => false)

/-- The numeric value of an array-index key (0 for others; only applied to
array-index keys). -/
def keyNum (s : String) : Nat :=
  (digitsToNat s.data 0).getD 0

/-- Insertion step of the numeric sort applied to array-index keys. -/
def insertIdx {α : Type} (p : String × α) : List (String × α) → List (String × α)
  | [] => [p]
  | q :: qs => if keyNum p.1 ≤ keyNum q.1 then p :: q :: qs else q :: insertIdx p qs

/-- Numeric insertion sort of the array-index entries. -/
def sortIdx {α : Type} : List (String × α) → List (String × α)
  | [] => []
  | p :: ps => insertIdx p (sortIdx ps)

/-- Models `Object.entries` per the ECMAScript ordinary own-property-key order:
array-index keys first in ascending numeric order, then the remaining keys
in insertion order. -/
def jsEntries {α : Type} (m : List (String × α)) : List (String × α) :=
  sortIdx (m.filter fun p => isArrayIndexKey p.1) ++
    m.filter fun p => !isArrayIndexKey p.1

/-- Models `record.getCellValueAsString(labelField) || "Unnamed"`: the label string,
falling back to `"Unnamed"` when the rendered string is empty (falsy). -/
def jsLabel (labelField : String) (record : AirRecord) : String :=
  let s := record.getCellValueAsString labelField
  if s = "" then "Unnamed" else s

/-- Models `typeof rawValue === "number" ? rawValue : 0`. -/
def cellNum : CellValue → Int
  | .num v => v
  | _ => 0

/-- The clamped per-record contribution `Math.max(value, 0)` where
`value = typeof rawValue === "number" ? rawValue : 0`. -/
def recClamp (valueField : String) (record : AirRecord) : Int :=
  max (cellNum (record.getCellValue valueField)) 0

/-- The `groupName`/`groupColor` derivation of the source (lines 55-75):
start from `"Ungrouped"`/no color; an object with a `name` property
contributes its name and, when it has a truthy `color`, the hex resolution
of that color; otherwise a string cell is used as the group name itself. -/
def deriveGroup (getHexForColor : String → Option String) (groupValue : CellValue) :
    String × Option String :=
  match groupValue with
  | .tag name color =>
    (name,
      match color with
      | some c => if c = "" then none else getHexForColor c
      | none => none)
  | .str s => (s, none)
  | _ => ("Ungrouped", none)

/-- The derived group name of a record (first component of `deriveGroup` on
the group cell). -/
def groupNameOf (getHexForColor : String → Option String) (groupByField : String)
    (record : AirRecord) : String :=
  (deriveGroup getHexForColor (record.getCellValue groupByField)).1

/-- One iteration of the ungrouped `records.forEach` loop (source lines
108-117): `if (!aggregated[label]) aggregated[label] = 0;
aggregated[label] += Math.max(value, 0)`.  The falsy test on the stored
number means "absent or equal to 0". -/
def ungroupedStep (labelField valueField : String)
    (aggregated : List (String × Int)) (record : AirRecord) : List (String × Int) :=
  let label := jsLabel labelField record
  let value : Int := cellNum (record.getCellValue valueField)
  let aggregated :=
    if (jsGet aggregated label).getD 0 = 0 then jsSet aggregated label 0 else aggregated
  jsSet aggregated label ((jsGet aggregated label).getD 0 + max value 0)

/-- The accumulated `aggregated` object after the ungrouped loop. -/
def ungroupedAgg (labelField valueField : String) (records : List AirRecord) :
    List (String × Int) :=
  records.foldl (ungroupedStep labelField valueField) []

/-- The per-(group, label) payload `{value: number; color?: string}`. -/
abbrev GroupEntry : Type := Int × Option String

/-- One iteration of the grouped `records.forEach` loop (source lines
49-85): ensure the group object exists, ensure the label entry exists
(initialised with value 0 and the record's derived group color), then add
the clamped value.  The presence tests are on objects, which are always
truthy, so they are plain presence checks. -/
def groupedStep (getHexForColor : String → Option String)
    (labelField valueField groupByField : String)
    (groups : List (String × List (String × GroupEntry)))
    (record : AirRecord) : List (String × List (String × GroupEntry)) :=
  let label := jsLabel labelField record
  let value : Int := cellNum (record.getCellValue valueField)
  let gc := deriveGroup getHexForColor (record.getCellValue groupByField)
  let groups :=
    if (jsGet groups gc.1).isSome then groups else jsSet groups gc.1 []
  let items := (jsGet groups gc.1).getD []
  let items :=
    if (jsGet items label).isSome then items else jsSet items label (0, gc.2)
  let entry := (jsGet items label).getD (0, none)
  jsSet groups gc.1 (jsSet items label (entry.1 + max value 0, entry.2))

/-- The accumulated `groups` object after the grouped loop. -/
def groupedAgg (getHexForColor : String → Option String)
    (labelField valueField groupByField : String) (records : List AirRecord) :
    List (String × List (String × GroupEntry)) :=
  records.foldl (groupedStep getHexForColor labelField valueField groupByField) []

/-- The children built from the grouped accumulator (source lines 87-102):
one branch per `Object.entries(groups)` entry, its children the label
leaves from `Object.entries(items)`, the branch color `itemChildren[0]?.color`. -/
def groupedChildren (groups : List (String × List (String × GroupEntry))) :
    List TreemapNode :=
  (jsEntries groups).map fun gi =>
    let itemChildren : List TreemapNode :=
      (jsEntries gi.2).map fun it => TreemapNode.node it.1 (some it.2.1) it.2.2 none
    TreemapNode.node gi.1 none (itemChildren.head?.bind TreemapNode.colorOf)
      (some itemChildren)

/-- The children built from the ungrouped accumulator (source lines
119-124): one leaf `{id: label, value}` per `Object.entries(aggregated)`
entry. -/
def ungroupedChildren (aggregated : List (String × Int)) : List TreemapNode :=
  (jsEntries aggregated).map fun p => TreemapNode.node p.1 (some p.2) none none

/-- The `treemapData` computation (source lines 38-127). -/
def treemapData (getHexForColor : String → Option String)
    (labelField valueField groupByField : Option String)
    (title : String) (records : List AirRecord) : TreemapNode :=
  match labelField, valueField with
  | some lf, some vf =>
    if records.isEmpty then TreemapNode.node title none none (some [])
    else
      match groupByField with
      | some gf =>
        TreemapNode.node title none none
          (some (groupedChildren (groupedAgg getHexForColor lf vf gf records)))
      | none =>
        TreemapNode.node title none none
          (some (ungroupedChildren (ungroupedAgg lf vf records)))
  | _, _ => TreemapNode.node title none none (some [])

/-- The sequence of keys produced by repeatedly inserting labels into a JS
object: a fresh label is appended, a seen label leaves the keys unchanged. -/
def seenFold (ks : List String) (ls : List String) : List String :=
  ls.foldl (fun ks l => if l ∈ ks then ks else ks ++ [l]) ks

def valSum (m : List (String × Int)) : Int := (m.map Prod.snd).sum

abbrev GroupsMap : Type := List (String × List (String × GroupEntry))

/-- The inner object stored under group `g` (`{}` when the group is absent). -/
def innerOf (m : GroupsMap) (g : String) : List (String × GroupEntry) :=
  (jsGet m g).getD []

/-- The running value stored for `(g, lab)` (0 when absent). -/
def entryVal (m : GroupsMap) (g lab : String) : Int :=
  ((jsGet (innerOf m g) lab).getD (0, none)).1

/-- The source's inner mutation for one record, acting on the inner object of
the record's group: ensure the label entry (initial value 0, the derived
group color), then add the clamped value. -/
def innerUpdate (lab : String) (gcol : Option String) (clamp : Int)
    (items : List (String × GroupEntry)) : List (String × GroupEntry) :=
  let items1 := if (jsGet items lab).isSome then items else jsSet items lab (0, gcol)
  let entry := (jsGet items1 lab).getD (0, none)
  jsSet items1 lab (entry.1 + clamp, entry.2)


/-- Insertion step of the numeric sort, on bare key strings. -/
def strInsertIdx (s : String) : List String → List String
  | [] => [s]
  | t :: ts => if keyNum s ≤ keyNum t then s :: t :: ts else t :: strInsertIdx s ts

/-- Numeric insertion sort on bare key strings. -/
def strSortIdx : List String → List String
  | [] => []
  | s :: ss => strInsertIdx s (strSortIdx ss)

/-- The `Object.entries` key order applied to a bare key sequence:
array-index keys first in ascending numeric order, then the rest in the
given (insertion) order. -/
def jsOrderKeys (ks : List String) : List String :=
  strSortIdx (ks.filter isArrayIndexKey) ++ ks.filter fun k => !isArrayIndexKey k

mutual

/-- Every node of a tree (the node itself and, recursively, the nodes of its
children when the `children` key is present). -/
def allNodes : TreemapNode → List TreemapNode
  | .node i v c none => [.node i v c none]
  | .node i v c (some l) => .node i v c (some l) :: allNodesList l

def allNodesList : List TreemapNode → List TreemapNode
  | [] => []
  | t :: ts => allNodes t ++ allNodesList ts

end

/-- A color resolver used for the concrete witness inputs. -/
def hexWitness : String → Option String :=
  fun c => if c = "blue" then some "#2d7ff9" else none

/-- A witness record: label `"A"`, value 10, group tag `G1` colored blue. -/
def recA1 : AirRecord :=
  { getCellValueAsString := fun f => if f = "L" then "A" else ""
  , getCellValue := fun f =>
      if f = "V" then CellValue.num 10
      else if f = "G" then CellValue.tag "G1" (some "blue")
      else CellValue.missing }

/-- A witness record: label `"A"`, value 5, same group tag. -/
def recA2 : AirRecord :=
  { getCellValueAsString := fun f => if f = "L" then "A" else ""
  , getCellValue := fun f =>
      if f = "V" then CellValue.num 5
      else if f = "G" then CellValue.tag "G1" (some "blue")
      else CellValue.missing }

/-- A witness record: label `"B"`, value -3, group tag `G2` without color. -/
def recB3 : AirRecord :=
  { getCellValueAsString := fun f => if f = "L" then "B" else ""
  , getCellValue := fun f =>
      if f = "V" then CellValue.num (-3)
      else if f = "G" then CellValue.tag "G2" none
      else CellValue.missing }

/-- A witness record with an empty label string and a non-numeric value cell. -/
def recEmptyLabel : AirRecord :=
  { getCellValueAsString := fun _ => ""
  , getCellValue := fun _ => CellValue.missing }

/-- The witness record list. -/
def witnessRecords : List AirRecord := [recA1, recA2, recB3]

/-- A witness record list whose head has an empty label string. -/
def witnessRecords2 : List AirRecord := [recEmptyLabel, recA1]

/-- Counterexample record with the non-index label `"b"`, inserted first. -/
def recKeyB : AirRecord :=
  { getCellValueAsString := fun _ => "b"
  , getCellValue := fun _ => CellValue.num 1 }

/-- Counterexample record with the array-index label `"0"`, inserted second. -/
def recKeyZero : AirRecord :=
  { getCellValueAsString := fun _ => "0"
  , getCellValue := fun _ => CellValue.num 2 }

/-! ### Association-list lemmas -/

theorem jsGet_jsSet_self {α : Type} (m : List (String × α)) (k : String) (v : α) :
    jsGet (jsSet m k v) k = some v := by
  induction m with
  | nil => simp [jsGet, jsSet]
  | cons p m ih =>
    by_cases h : p.1 = k
    · simp [jsGet, jsSet, h]
    · simp [jsGet, jsSet, h, ih]

theorem jsGet_jsSet_ne {α : Type} (m : List (String × α)) (k k' : String) (v : α)
    (h : k' ≠ k) : jsGet (jsSet m k v) k' = jsGet m k' := by
  have h' : ¬(k = k') := fun hh => h hh.symm
  induction m with
  | nil => simp [jsGet, jsSet, h']
  | cons p m ih =>
    by_cases h1 : p.1 = k
    · subst h1
      simp [jsGet, jsSet, h']
    · simp [jsGet, jsSet, h1, ih]

theorem jsGet_isSome_iff_mem {α : Type} (m : List (String × α)) (k : String) :
    (jsGet m k).isSome ↔ k ∈ jsKeys m := by
  induction m with
  | nil => simp [jsGet, jsKeys]
  | cons p m ih =>
    by_cases h : p.1 = k
    · simp [jsGet, jsKeys, h]
    · simp only [jsGet, jsKeys, if_neg h, List.map_cons, List.mem_cons] at ih ⊢
      rw [ih]
      constructor
      · exact Or.inr
      · rintro (hh | hh)
        · exact absurd hh.symm h
        · exact hh

theorem jsGet_eq_none_iff {α : Type} (m : List (String × α)) (k : String) :
    jsGet m k = none ↔ k ∉ jsKeys m := by
  rw [← jsGet_isSome_iff_mem, Option.not_isSome_iff_eq_none]

theorem jsKeys_jsSet_mem {α : Type} (m : List (String × α)) (k : String) (v : α)
    (h : k ∈ jsKeys m) : jsKeys (jsSet m k v) = jsKeys m := by
  induction m with
  | nil => simp [jsKeys] at h
  | cons p m ih =>
    by_cases h1 : p.1 = k
    · simp [jsSet, jsKeys, h1]
    · simp only [jsKeys, List.map_cons, List.mem_cons] at h
      rcases h with h | h
      · exact absurd h.symm h1
      · simp only [jsKeys] at ih
        simp [jsSet, h1, jsKeys, ih h]

theorem jsKeys_jsSet_not_mem {α : Type} (m : List (String × α)) (k : String) (v : α)
    (h : k ∉ jsKeys m) : jsKeys (jsSet m k v) = jsKeys m ++ [k] := by
  induction m with
  | nil => simp [jsSet, jsKeys]
  | cons p m ih =>
    simp only [jsKeys, List.map_cons, List.mem_cons] at h
    push_neg at h
    have hp : ¬(p.1 = k) := fun hh => h.1 hh.symm
    simp only [jsKeys] at ih
    simp [jsSet, jsKeys, hp, ih h.2]

theorem mem_of_jsGet_eq_some {α : Type} (m : List (String × α)) (k : String) (v : α)
    (h : jsGet m k = some v) : (k, v) ∈ m := by
  induction m with
  | nil => simp [jsGet] at h
  | cons p m ih =>
    by_cases h1 : p.1 = k
    · simp only [jsGet, if_pos h1, Option.some.injEq] at h
      have hp : p = (k, v) := by
        obtain ⟨a, b⟩ := p
        simp only at h1 h
        simp [h1, h]
      rw [hp]
      exact List.mem_cons_self _ _
    · simp only [jsGet, if_neg h1] at h
      exact List.mem_cons_of_mem _ (ih h)

theorem jsGet_eq_some_of_mem_nodup {α : Type} (m : List (String × α)) (k : String)
    (v : α) (hnd : (jsKeys m).Nodup) (h : (k, v) ∈ m) : jsGet m k = some v := by
  induction m with
  | nil => simp at h
  | cons p m ih =>
    simp only [jsKeys, List.map_cons, List.nodup_cons] at hnd
    rcases List.mem_cons.mp h with h | h
    · rw [← h]
      simp [jsGet]
    · have hk : ¬(p.1 = k) := by
        intro hh
        exact hnd.1 (hh ▸ (List.mem_map.mpr ⟨(k, v), h, rfl⟩))
      simp only [jsKeys] at ih
      simp [jsGet, hk, ih hnd.2 h]

/-! ### `Object.entries` is a permutation of the insertion-ordered object -/

theorem insertIdx_perm {α : Type} (p : String × α) (l : List (String × α)) :
    (insertIdx p l).Perm (p :: l) := by
  induction l with
  | nil => simp [insertIdx]
  | cons q qs ih =>
    by_cases h : keyNum p.1 ≤ keyNum q.1
    · simp [insertIdx, h]
    · simp only [insertIdx, if_neg h]
      exact (ih.cons q).trans (List.Perm.swap p q qs)

theorem sortIdx_perm {α : Type} (l : List (String × α)) : (sortIdx l).Perm l := by
  induction l with
  | nil => simp [sortIdx]
  | cons p ps ih =>
    exact (insertIdx_perm p (sortIdx ps)).trans (ih.cons p)

theorem jsEntries_perm {α : Type} (m : List (String × α)) : (jsEntries m).Perm m := by
  unfold jsEntries
  exact ((sortIdx_perm _).append_right _).trans (List.filter_append_perm _ m)

theorem mem_jsEntries {α : Type} (m : List (String × α)) (p : String × α) :
    p ∈ jsEntries m ↔ p ∈ m :=
  (jsEntries_perm m).mem_iff

theorem jsEntries_eq_nil_iff {α : Type} (m : List (String × α)) :
    jsEntries m = [] ↔ m = [] := by
  constructor
  · intro h
    have := (jsEntries_perm m).length_eq
    rw [h] at this
    exact List.length_eq_zero.mp this.symm
  · intro h
    subst h
    rfl

/-! ### First-seen key accumulation -/

theorem seenFold_nil : seenFold ks [] = ks := rfl

theorem seenFold_cons (ks : List String) (l : String) (ls : List String) :
    seenFold ks (l :: ls) = seenFold (if l ∈ ks then ks else ks ++ [l]) ls := rfl

theorem mem_seenFold (ks ls : List String) (x : String) :
    x ∈ seenFold ks ls ↔ x ∈ ks ∨ x ∈ ls := by
  induction ls generalizing ks with
  | nil => simp [seenFold]
  | cons l ls ih =>
    rw [seenFold_cons, ih]
    by_cases h : l ∈ ks
    · simp only [if_pos h, List.mem_cons]
      constructor
      · rintro (hh | hh)
        · exact Or.inl hh
        · exact Or.inr (Or.inr hh)
      · rintro (hh | hh | hh)
        · exact Or.inl hh
        · exact Or.inl (hh ▸ h)
        · exact Or.inr hh
    · simp only [if_neg h, List.mem_append, List.mem_singleton, List.mem_cons]
      tauto

theorem seenFold_nodup (ks ls : List String) (h : ks.Nodup) :
    (seenFold ks ls).Nodup := by
  induction ls generalizing ks with
  | nil => exact h
  | cons l ls ih =>
    rw [seenFold_cons]
    by_cases hl : l ∈ ks
    · rw [if_pos hl]
      exact ih ks h
    · rw [if_neg hl]
      refine ih _ ?_
      simp [List.nodup_append, h, hl]

theorem seenFold_ne_nil (ks ls : List String) (h : ls ≠ []) :
    seenFold ks ls ≠ [] := by
  cases ls with
  | nil => exact absurd rfl h
  | cons l ls =>
    rw [seenFold_cons]
    intro hnil
    have : l ∈ seenFold (if l ∈ ks then ks else ks ++ [l]) ls := by
      rw [mem_seenFold]
      by_cases hl : l ∈ ks
      · simp [hl]
      · rw [if_neg hl]
        exact Or.inl (List.mem_append.mpr (Or.inr (List.mem_singleton.mpr rfl)))
    rw [hnil] at this
    exact absurd this (List.not_mem_nil l)

/-! ### The ungrouped accumulation loop -/

/-- The `if (!aggregated[label]) aggregated[label] = 0` initialisation step
never changes the number read back through the `getD 0` view. -/
theorem jsGetD_ungroupedInit (m : List (String × Int)) (lab x : String) :
    (jsGet (if (jsGet m lab).getD 0 = 0 then jsSet m lab 0 else m) x).getD 0 =
      (jsGet m x).getD 0 := by
  by_cases hc : (jsGet m lab).getD 0 = 0
  · rw [if_pos hc]
    by_cases hx : x = lab
    · subst hx
      rw [jsGet_jsSet_self, hc]
      rfl
    · rw [jsGet_jsSet_ne m lab x 0 hx]
  · rw [if_neg hc]

theorem jsKeys_ungroupedInit (m : List (String × Int)) (lab : String) :
    jsKeys (if (jsGet m lab).getD 0 = 0 then jsSet m lab 0 else m) =
      if lab ∈ jsKeys m then jsKeys m else jsKeys m ++ [lab] := by
  by_cases hm : lab ∈ jsKeys m
  · rw [if_pos hm]
    by_cases hc : (jsGet m lab).getD 0 = 0
    · rw [if_pos hc, jsKeys_jsSet_mem m lab 0 hm]
    · rw [if_neg hc]
  · rw [if_neg hm]
    have hn : jsGet m lab = none := (jsGet_eq_none_iff m lab).mpr hm
    rw [hn]
    simp only [Option.getD_none, if_pos rfl]
    exact jsKeys_jsSet_not_mem m lab 0 hm

theorem mem_jsKeys_ungroupedInit (m : List (String × Int)) (lab : String) :
    lab ∈ jsKeys (if (jsGet m lab).getD 0 = 0 then jsSet m lab 0 else m) := by
  rw [jsKeys_ungroupedInit]
  by_cases hm : lab ∈ jsKeys m
  · rw [if_pos hm]
    exact hm
  · rw [if_neg hm]
    exact List.mem_append.mpr (Or.inr (List.mem_singleton.mpr rfl))

theorem jsKeys_ungroupedStep (lf vf : String) (m : List (String × Int))
    (r : AirRecord) :
    jsKeys (ungroupedStep lf vf m r) =
      if jsLabel lf r ∈ jsKeys m then jsKeys m else jsKeys m ++ [jsLabel lf r] := by
  unfold ungroupedStep
  rw [jsKeys_jsSet_mem _ _ _ (mem_jsKeys_ungroupedInit m (jsLabel lf r))]
  exact jsKeys_ungroupedInit m (jsLabel lf r)

theorem jsGetD_ungroupedStep (lf vf : String) (m : List (String × Int))
    (r : AirRecord) (x : String) :
    (jsGet (ungroupedStep lf vf m r) x).getD 0 =
      (jsGet m x).getD 0 + (if jsLabel lf r = x then recClamp vf r else 0) := by
  unfold ungroupedStep
  by_cases hx : jsLabel lf r = x
  · rw [← hx, jsGet_jsSet_self]
    simp only [Option.getD_some, if_pos rfl]
    rw [jsGetD_ungroupedInit m (jsLabel lf r) (jsLabel lf r)]
    rfl
  · rw [jsGet_jsSet_ne _ _ _ _ (fun hh => hx hh.symm), jsGetD_ungroupedInit m _ x,
      if_neg hx, add_zero]

theorem jsKeys_foldl_ungroupedStep (lf vf : String) (m : List (String × Int))
    (rs : List AirRecord) :
    jsKeys (rs.foldl (ungroupedStep lf vf) m) =
      seenFold (jsKeys m) (rs.map (jsLabel lf)) := by
  induction rs generalizing m with
  | nil => rfl
  | cons r rs ih =>
    rw [List.foldl_cons, ih, List.map_cons, seenFold_cons, jsKeys_ungroupedStep]

theorem jsGetD_foldl_ungroupedStep (lf vf : String) (m : List (String × Int))
    (rs : List AirRecord) (x : String) :
    (jsGet (rs.foldl (ungroupedStep lf vf) m) x).getD 0 =
      (jsGet m x).getD 0 +
        ((rs.filter fun r => decide (jsLabel lf r = x)).map (recClamp vf)).sum := by
  induction rs generalizing m with
  | nil => simp
  | cons r rs ih =>
    rw [List.foldl_cons, ih, jsGetD_ungroupedStep]
    by_cases h : jsLabel lf r = x
    · simp only [List.filter_cons, decide_eq_true_eq, if_pos h, List.map_cons,
        List.sum_cons]
      ring
    · simp only [List.filter_cons, decide_eq_true_eq, if_neg h, add_zero]

/-- The label keys of the final `aggregated` object: exactly the derived
labels, in first-seen order. -/
theorem jsKeys_ungroupedAgg (lf vf : String) (rs : List AirRecord) :
    jsKeys (ungroupedAgg lf vf rs) = seenFold [] (rs.map (jsLabel lf)) :=
  jsKeys_foldl_ungroupedStep lf vf [] rs

theorem mem_jsKeys_ungroupedAgg (lf vf : String) (rs : List AirRecord) (x : String) :
    x ∈ jsKeys (ungroupedAgg lf vf rs) ↔ ∃ r ∈ rs, jsLabel lf r = x := by
  rw [jsKeys_ungroupedAgg, mem_seenFold]
  simp

theorem nodup_jsKeys_ungroupedAgg (lf vf : String) (rs : List AirRecord) :
    (jsKeys (ungroupedAgg lf vf rs)).Nodup := by
  rw [jsKeys_ungroupedAgg]
  exact seenFold_nodup [] _ List.nodup_nil

theorem jsGetD_ungroupedAgg (lf vf : String) (rs : List AirRecord) (x : String) :
    (jsGet (ungroupedAgg lf vf rs) x).getD 0 =
      ((rs.filter fun r => decide (jsLabel lf r = x)).map (recClamp vf)).sum := by
  have := jsGetD_foldl_ungroupedStep lf vf [] rs x
  simpa [jsGet] using this

/-! ### The running total of the ungrouped accumulator -/

theorem valSum_jsSet_of_none (m : List (String × Int)) (k : String) (v : Int)
    (h : jsGet m k = none) : valSum (jsSet m k v) = valSum m + v := by
  induction m with
  | nil => simp [valSum, jsSet]
  | cons p m ih =>
    by_cases h1 : p.1 = k
    · simp only [jsGet, if_pos h1] at h
      exact absurd h (by simp)
    · simp only [jsGet, if_neg h1] at h
      have hv := ih h
      simp only [valSum, List.map_cons, List.sum_cons] at hv ⊢
      simp only [jsSet, if_neg h1, List.map_cons, List.sum_cons]
      rw [hv]
      ring

theorem valSum_jsSet_of_some (m : List (String × Int)) (k : String) (v w : Int)
    (h : jsGet m k = some w) : valSum (jsSet m k v) = valSum m - w + v := by
  induction m with
  | nil => simp [jsGet] at h
  | cons p m ih =>
    by_cases h1 : p.1 = k
    · simp only [jsGet, if_pos h1, Option.some.injEq] at h
      simp only [jsSet, if_pos h1, valSum, List.map_cons, List.sum_cons, h]
      ring
    · simp only [jsGet, if_neg h1] at h
      have hv := ih h
      simp only [valSum, List.map_cons, List.sum_cons] at hv ⊢
      simp only [jsSet, if_neg h1, List.map_cons, List.sum_cons]
      rw [hv]
      ring

theorem valSum_ungroupedStep (lf vf : String) (m : List (String × Int))
    (r : AirRecord) : valSum (ungroupedStep lf vf m r) = valSum m + recClamp vf r := by
  simp only [ungroupedStep]
  rcases hg : jsGet m (jsLabel lf r) with _ | w
  · rw [show ((none : Option Int).getD 0 : Int) = 0 from rfl, if_pos rfl,
      jsGet_jsSet_self,
      valSum_jsSet_of_some _ _ _ 0 (jsGet_jsSet_self m (jsLabel lf r) 0),
      valSum_jsSet_of_none m _ 0 hg]
    simp only [Option.getD_some, recClamp]
    ring
  · by_cases hw : w = 0
    · subst hw
      rw [show ((some (0 : Int)).getD 0 : Int) = 0 from rfl, if_pos rfl,
        jsGet_jsSet_self,
        valSum_jsSet_of_some _ _ _ 0 (jsGet_jsSet_self m (jsLabel lf r) 0),
        valSum_jsSet_of_some m _ 0 0 hg]
      simp only [Option.getD_some, recClamp]
      ring
    · rw [show ((some w).getD 0 : Int) = w from rfl, if_neg hw,
        valSum_jsSet_of_some m _ _ w hg, hg]
      simp only [Option.getD_some, recClamp]
      ring

theorem valSum_foldl_ungroupedStep (lf vf : String) (m : List (String × Int))
    (rs : List AirRecord) :
    valSum (rs.foldl (ungroupedStep lf vf) m) =
      valSum m + (rs.map (recClamp vf)).sum := by
  induction rs generalizing m with
  | nil => simp
  | cons r rs ih =>
    rw [List.foldl_cons, ih, valSum_ungroupedStep, List.map_cons, List.sum_cons]
    ring

theorem valSum_ungroupedAgg (lf vf : String) (rs : List AirRecord) :
    valSum (ungroupedAgg lf vf rs) = (rs.map (recClamp vf)).sum := by
  have h := valSum_foldl_ungroupedStep lf vf [] rs
  simpa [valSum] using h

/-! ### The grouped accumulation loop -/

theorem jsGet_ensure_self {α : Type} (m : List (String × α)) (k : String) (d : α) :
    jsGet (if (jsGet m k).isSome then m else jsSet m k d) k =
      some ((jsGet m k).getD d) := by
  rcases h : jsGet m k with _ | v
  · simp [jsGet_jsSet_self]
  · simp [h]

theorem jsGet_ensure_ne {α : Type} (m : List (String × α)) (k k' : String) (d : α)
    (h : k' ≠ k) :
    jsGet (if (jsGet m k).isSome then m else jsSet m k d) k' = jsGet m k' := by
  by_cases hc : (jsGet m k).isSome
  · rw [if_pos hc]
  · rw [if_neg hc, jsGet_jsSet_ne m k k' d h]

theorem jsKeys_ensure {α : Type} (m : List (String × α)) (k : String) (d : α) :
    jsKeys (if (jsGet m k).isSome then m else jsSet m k d) =
      if k ∈ jsKeys m then jsKeys m else jsKeys m ++ [k] := by
  by_cases hm : k ∈ jsKeys m
  · rw [if_pos hm, if_pos ((jsGet_isSome_iff_mem m k).mpr hm)]
  · rw [if_neg hm, if_neg (fun hc => hm ((jsGet_isSome_iff_mem m k).mp hc)),
      jsKeys_jsSet_not_mem m k d hm]

theorem mem_jsKeys_ensure {α : Type} (m : List (String × α)) (k : String) (d : α) :
    k ∈ jsKeys (if (jsGet m k).isSome then m else jsSet m k d) := by
  rw [← jsGet_isSome_iff_mem, jsGet_ensure_self]
  rfl

theorem innerOf_outerInit (m : GroupsMap) (g : String) :
    (jsGet (if (jsGet m g).isSome then m else jsSet m g []) g).getD [] =
      innerOf m g := by
  rw [jsGet_ensure_self]
  rfl

theorem groupedStep_eq (hex : String → Option String) (lf vf gf : String)
    (m : GroupsMap) (r : AirRecord) :
    groupedStep hex lf vf gf m r =
      jsSet (if (jsGet m (groupNameOf hex gf r)).isSome then m
             else jsSet m (groupNameOf hex gf r) [])
        (groupNameOf hex gf r)
        (innerUpdate (jsLabel lf r) (deriveGroup hex (r.getCellValue gf)).2
          (recClamp vf r) (innerOf m (groupNameOf hex gf r))) := by
  simp only [groupedStep, innerUpdate, groupNameOf, recClamp]
  rw [innerOf_outerInit]

theorem jsKeys_innerUpdate (lab : String) (gcol : Option String) (clamp : Int)
    (items : List (String × GroupEntry)) :
    jsKeys (innerUpdate lab gcol clamp items) =
      if lab ∈ jsKeys items then jsKeys items else jsKeys items ++ [lab] := by
  simp only [innerUpdate]
  rw [jsKeys_jsSet_mem _ _ _ (mem_jsKeys_ensure items lab (0, gcol))]
  exact jsKeys_ensure items lab (0, gcol)

theorem jsGet_innerUpdate_ne (lab : String) (gcol : Option String) (clamp : Int)
    (items : List (String × GroupEntry)) (lab' : String) (h : lab' ≠ lab) :
    jsGet (innerUpdate lab gcol clamp items) lab' = jsGet items lab' := by
  simp only [innerUpdate]
  rw [jsGet_jsSet_ne _ _ _ _ h, jsGet_ensure_ne _ _ _ _ h]

theorem entryVal_innerUpdate_self (lab : String) (gcol : Option String)
    (clamp : Int) (items : List (String × GroupEntry)) :
    ((jsGet (innerUpdate lab gcol clamp items) lab).getD (0, none)).1 =
      ((jsGet items lab).getD (0, none)).1 + clamp := by
  simp only [innerUpdate]
  rw [jsGet_jsSet_self, jsGet_ensure_self]
  rcases h : jsGet items lab with _ | e
  · simp
  · simp

theorem jsKeys_groupedStep (hex : String → Option String) (lf vf gf : String)
    (m : GroupsMap) (r : AirRecord) :
    jsKeys (groupedStep hex lf vf gf m r) =
      if groupNameOf hex gf r ∈ jsKeys m then jsKeys m
      else jsKeys m ++ [groupNameOf hex gf r] := by
  rw [groupedStep_eq,
    jsKeys_jsSet_mem _ _ _ (mem_jsKeys_ensure m (groupNameOf hex gf r) [])]
  exact jsKeys_ensure m (groupNameOf hex gf r) []

theorem jsGet_groupedStep_ne (hex : String → Option String) (lf vf gf : String)
    (m : GroupsMap) (r : AirRecord) (g : String) (h : g ≠ groupNameOf hex gf r) :
    jsGet (groupedStep hex lf vf gf m r) g = jsGet m g := by
  rw [groupedStep_eq, jsGet_jsSet_ne _ _ _ _ h, jsGet_ensure_ne _ _ _ _ h]

theorem innerOf_groupedStep_self (hex : String → Option String) (lf vf gf : String)
    (m : GroupsMap) (r : AirRecord) :
    innerOf (groupedStep hex lf vf gf m r) (groupNameOf hex gf r) =
      innerUpdate (jsLabel lf r) (deriveGroup hex (r.getCellValue gf)).2
        (recClamp vf r) (innerOf m (groupNameOf hex gf r)) := by
  unfold innerOf
  rw [groupedStep_eq, jsGet_jsSet_self]
  rfl

theorem innerOf_groupedStep_ne (hex : String → Option String) (lf vf gf : String)
    (m : GroupsMap) (r : AirRecord) (g : String) (h : g ≠ groupNameOf hex gf r) :
    innerOf (groupedStep hex lf vf gf m r) g = innerOf m g := by
  unfold innerOf
  rw [jsGet_groupedStep_ne hex lf vf gf m r g h]

theorem entryVal_groupedStep (hex : String → Option String) (lf vf gf : String)
    (m : GroupsMap) (r : AirRecord) (g lab : String) :
    entryVal (groupedStep hex lf vf gf m r) g lab =
      entryVal m g lab +
        (if groupNameOf hex gf r = g ∧ jsLabel lf r = lab then recClamp vf r
         else 0) := by
  by_cases hg : groupNameOf hex gf r = g
  · subst hg
    by_cases hl : jsLabel lf r = lab
    · subst hl
      unfold entryVal
      rw [innerOf_groupedStep_self, entryVal_innerUpdate_self,
        if_pos ⟨rfl, rfl⟩]
    · unfold entryVal
      rw [innerOf_groupedStep_self,
        jsGet_innerUpdate_ne _ _ _ _ _ (fun hh => hl hh.symm),
        if_neg (fun hc => hl hc.2), add_zero]
  · unfold entryVal
    rw [innerOf_groupedStep_ne _ _ _ _ _ _ _ (fun hh => hg hh.symm),
      if_neg (fun hc => hg hc.1), add_zero]

theorem jsKeys_foldl_groupedStep (hex : String → Option String) (lf vf gf : String)
    (m : GroupsMap) (rs : List AirRecord) :
    jsKeys (rs.foldl (groupedStep hex lf vf gf) m) =
      seenFold (jsKeys m) (rs.map (groupNameOf hex gf)) := by
  induction rs generalizing m with
  | nil => rfl
  | cons r rs ih =>
    rw [List.foldl_cons, ih, List.map_cons, seenFold_cons, jsKeys_groupedStep]

theorem innerKeys_foldl_groupedStep (hex : String → Option String)
    (lf vf gf : String) (m : GroupsMap) (rs : List AirRecord) (g : String) :
    jsKeys (innerOf (rs.foldl (groupedStep hex lf vf gf) m) g) =
      seenFold (jsKeys (innerOf m g))
        ((rs.filter fun r => decide (groupNameOf hex gf r = g)).map (jsLabel lf)) := by
  induction rs generalizing m with
  | nil => rfl
  | cons r rs ih =>
    rw [List.foldl_cons, ih]
    by_cases hr : groupNameOf hex gf r = g
    · subst hr
      rw [innerOf_groupedStep_self, jsKeys_innerUpdate]
      simp only [List.filter_cons, decide_eq_true_eq, if_pos rfl, if_true,
        List.map_cons, seenFold_cons]
    · rw [innerOf_groupedStep_ne _ _ _ _ _ _ _ (fun hh => hr hh.symm)]
      simp only [List.filter_cons, decide_eq_true_eq, if_neg hr]

theorem entryVal_foldl_groupedStep (hex : String → Option String)
    (lf vf gf : String) (m : GroupsMap) (rs : List AirRecord) (g lab : String) :
    entryVal (rs.foldl (groupedStep hex lf vf gf) m) g lab =
      entryVal m g lab +
        ((rs.filter fun r =>
            decide (groupNameOf hex gf r = g ∧ jsLabel lf r = lab)).map
          (recClamp vf)).sum := by
  induction rs generalizing m with
  | nil => simp
  | cons r rs ih =>
    rw [List.foldl_cons, ih, entryVal_groupedStep]
    by_cases h : groupNameOf hex gf r = g ∧ jsLabel lf r = lab
    · simp only [List.filter_cons, decide_eq_true_eq, if_pos h, List.map_cons,
        List.sum_cons]
      ring
    · simp only [List.filter_cons, decide_eq_true_eq, if_neg h, add_zero]

theorem jsKeys_groupedAgg (hex : String → Option String) (lf vf gf : String)
    (rs : List AirRecord) :
    jsKeys (groupedAgg hex lf vf gf rs) =
      seenFold [] (rs.map (groupNameOf hex gf)) :=
  jsKeys_foldl_groupedStep hex lf vf gf [] rs

theorem nodup_jsKeys_groupedAgg (hex : String → Option String) (lf vf gf : String)
    (rs : List AirRecord) : (jsKeys (groupedAgg hex lf vf gf rs)).Nodup := by
  rw [jsKeys_groupedAgg]
  exact seenFold_nodup [] _ List.nodup_nil

theorem mem_jsKeys_groupedAgg (hex : String → Option String) (lf vf gf : String)
    (rs : List AirRecord) (g : String) :
    g ∈ jsKeys (groupedAgg hex lf vf gf rs) ↔
      ∃ r ∈ rs, groupNameOf hex gf r = g := by
  rw [jsKeys_groupedAgg, mem_seenFold]
  simp

theorem innerKeys_groupedAgg (hex : String → Option String) (lf vf gf : String)
    (rs : List AirRecord) (g : String) :
    jsKeys (innerOf (groupedAgg hex lf vf gf rs) g) =
      seenFold []
        ((rs.filter fun r => decide (groupNameOf hex gf r = g)).map (jsLabel lf)) := by
  have h := innerKeys_foldl_groupedStep hex lf vf gf [] rs g
  simpa [innerOf, jsGet] using h

theorem nodup_innerKeys_groupedAgg (hex : String → Option String) (lf vf gf : String)
    (rs : List AirRecord) (g : String) :
    (jsKeys (innerOf (groupedAgg hex lf vf gf rs) g)).Nodup := by
  rw [innerKeys_groupedAgg]
  exact seenFold_nodup [] _ List.nodup_nil

theorem mem_innerKeys_groupedAgg (hex : String → Option String) (lf vf gf : String)
    (rs : List AirRecord) (g lab : String) :
    lab ∈ jsKeys (innerOf (groupedAgg hex lf vf gf rs) g) ↔
      ∃ r ∈ rs, groupNameOf hex gf r = g ∧ jsLabel lf r = lab := by
  rw [innerKeys_groupedAgg, mem_seenFold]
  simp only [List.not_mem_nil, false_or, List.mem_map, List.mem_filter,
    decide_eq_true_eq]
  constructor
  · rintro ⟨r, ⟨hr, hg⟩, hl⟩
    exact ⟨r, hr, hg, hl⟩
  · rintro ⟨r, hr, hg, hl⟩
    exact ⟨r, ⟨hr, hg⟩, hl⟩

theorem entryVal_groupedAgg (hex : String → Option String) (lf vf gf : String)
    (rs : List AirRecord) (g lab : String) :
    entryVal (groupedAgg hex lf vf gf rs) g lab =
      ((rs.filter fun r =>
          decide (groupNameOf hex gf r = g ∧ jsLabel lf r = lab)).map
        (recClamp vf)).sum := by
  have h := entryVal_foldl_groupedStep hex lf vf gf [] rs g lab
  simpa [entryVal, innerOf, jsGet] using h

/-! ### Key order of `Object.entries` -/

theorem jsKeys_insertIdx {α : Type} (p : String × α) (l : List (String × α)) :
    jsKeys (insertIdx p l) = strInsertIdx p.1 (jsKeys l) := by
  induction l with
  | nil => rfl
  | cons q qs ih =>
    by_cases h : keyNum p.1 ≤ keyNum q.1
    · simp [insertIdx, strInsertIdx, jsKeys, h]
    · simp only [insertIdx, if_neg h, jsKeys, List.map_cons, strInsertIdx]
      simp only [jsKeys] at ih
      rw [ih]

theorem jsKeys_sortIdx {α : Type} (l : List (String × α)) :
    jsKeys (sortIdx l) = strSortIdx (jsKeys l) := by
  induction l with
  | nil => rfl
  | cons p ps ih =>
    simp only [sortIdx, jsKeys, List.map_cons, strSortIdx]
    have hi := jsKeys_insertIdx p (sortIdx ps)
    simp only [jsKeys] at hi ih
    rw [hi, ih]

theorem jsKeys_filter {α : Type} (pred : String → Bool) (m : List (String × α)) :
    jsKeys (m.filter fun p => pred p.1) = (jsKeys m).filter pred := by
  induction m with
  | nil => rfl
  | cons p ps ih =>
    simp only [jsKeys, List.map_cons, List.filter_cons]
    by_cases h : pred p.1
    · simp only [h, if_true, List.map_cons]
      simp only [jsKeys] at ih
      rw [ih]
    · simp only [Bool.not_eq_true] at h
      simp only [h, Bool.false_eq_true, if_false]
      simp only [jsKeys] at ih
      rw [ih]

theorem jsKeys_jsEntries {α : Type} (m : List (String × α)) :
    jsKeys (jsEntries m) = jsOrderKeys (jsKeys m) := by
  unfold jsEntries jsOrderKeys
  simp only [jsKeys, List.map_append]
  have h1 := jsKeys_sortIdx (m.filter fun p => isArrayIndexKey p.1)
  have h2 := jsKeys_filter isArrayIndexKey m
  have h3 := jsKeys_filter (fun k => !isArrayIndexKey k) m
  simp only [jsKeys] at h1 h2 h3
  rw [h1, h2, h3]

/-! ### Node enumeration -/

theorem allNodes_none (i : String) (v : Option Int) (c : Option String) :
    allNodes (TreemapNode.node i v c none) = [TreemapNode.node i v c none] := by
  rw [allNodes]

theorem allNodes_some (i : String) (v : Option Int) (c : Option String)
    (l : List TreemapNode) :
    allNodes (TreemapNode.node i v c (some l)) =
      TreemapNode.node i v c (some l) :: allNodesList l := by
  rw [allNodes]

theorem mem_allNodesList (l : List TreemapNode) (x : TreemapNode) :
    x ∈ allNodesList l ↔ ∃ t ∈ l, x ∈ allNodes t := by
  induction l with
  | nil =>
    rw [allNodesList]
    simp
  | cons t ts ih =>
    rw [allNodesList]
    simp only [List.mem_append, List.mem_cons, ih]
    constructor
    · rintro (hx | ⟨u, hu, hx⟩)
      · exact ⟨t, Or.inl rfl, hx⟩
      · exact ⟨u, Or.inr hu, hx⟩
    · rintro ⟨u, hu | hu, hx⟩
      · exact Or.inl (hu ▸ hx)
      · exact Or.inr ⟨u, hu, hx⟩

/-! ### Shape of the produced trees -/

theorem treemapData_ungrouped_eq (hex : String → Option String) (lf vf : String)
    (title : String) (records : List AirRecord) (h : records ≠ []) :
    treemapData hex (some lf) (some vf) none title records =
      TreemapNode.node title none none
        (some (ungroupedChildren (ungroupedAgg lf vf records))) := by
  cases records with
  | nil => exact absurd rfl h
  | cons r rs => rfl

theorem treemapData_grouped_eq (hex : String → Option String) (lf vf gf : String)
    (title : String) (records : List AirRecord) (h : records ≠ []) :
    treemapData hex (some lf) (some vf) (some gf) title records =
      TreemapNode.node title none none
        (some (groupedChildren (groupedAgg hex lf vf gf records))) := by
  cases records with
  | nil => exact absurd rfl h
  | cons r rs => rfl

theorem ungrouped_child_struct (lf vf : String) (records : List AirRecord)
    (c : TreemapNode) (h : c ∈ ungroupedChildren (ungroupedAgg lf vf records)) :
    c.valueOf = some (((records.filter fun r => decide (jsLabel lf r = c.idOf)).map
        (recClamp vf)).sum) ∧
    c.childrenOf = none ∧ c.colorOf = none := by
  obtain ⟨p, hp, rfl⟩ := List.mem_map.mp h
  refine ⟨?_, rfl, rfl⟩
  show some p.2 = _
  simp only [TreemapNode.idOf]
  have hpm := (mem_jsEntries _ _).mp hp
  have hget := jsGet_eq_some_of_mem_nodup _ _ _
    (nodup_jsKeys_ungroupedAgg lf vf records) hpm
  have hval := jsGetD_ungroupedAgg lf vf records p.1
  rw [hget] at hval
  simp only [Option.getD_some] at hval
  rw [hval]

theorem ungrouped_child_exists (lf vf : String) (records : List AirRecord)
    (lab : String) (h : lab ∈ jsKeys (ungroupedAgg lf vf records)) :
    ∃ c ∈ ungroupedChildren (ungroupedAgg lf vf records), c.idOf = lab := by
  have hm : lab ∈ jsKeys (jsEntries (ungroupedAgg lf vf records)) :=
    ((jsEntries_perm (ungroupedAgg lf vf records)).map Prod.fst).mem_iff.mpr h
  obtain ⟨p, hp, hp1⟩ := List.mem_map.mp hm
  exact ⟨TreemapNode.node p.1 (some p.2) none none,
    List.mem_map_of_mem _ hp, hp1⟩

theorem ungrouped_childIds (lf vf : String) (records : List AirRecord) :
    (ungroupedChildren (ungroupedAgg lf vf records)).map TreemapNode.idOf =
      jsOrderKeys (seenFold [] (records.map (jsLabel lf))) := by
  unfold ungroupedChildren
  rw [List.map_map]
  have h1 : jsKeys (jsEntries (ungroupedAgg lf vf records)) =
      jsOrderKeys (jsKeys (ungroupedAgg lf vf records)) :=
    jsKeys_jsEntries (ungroupedAgg lf vf records)
  simp only [jsKeys] at h1
  have h2 : (TreemapNode.idOf ∘ fun p : String × Int =>
      TreemapNode.node p.1 (some p.2) none none) = Prod.fst := rfl
  rw [h2, h1, ← jsKeys_ungroupedAgg lf vf records]
  rfl

theorem nodup_ungrouped_childIds (lf vf : String) (records : List AirRecord) :
    ((ungroupedChildren (ungroupedAgg lf vf records)).map TreemapNode.idOf).Nodup := by
  unfold ungroupedChildren
  rw [List.map_map]
  have h2 : (TreemapNode.idOf ∘ fun p : String × Int =>
      TreemapNode.node p.1 (some p.2) none none) = Prod.fst := rfl
  rw [h2]
  have hperm := (jsEntries_perm (ungroupedAgg lf vf records)).map Prod.fst
  have hn := nodup_jsKeys_ungroupedAgg lf vf records
  simp only [jsKeys] at hn
  exact hperm.nodup_iff.mpr hn

theorem grouped_child_struct (hex : String → Option String) (lf vf gf : String)
    (records : List AirRecord) (gn : TreemapNode)
    (h : gn ∈ groupedChildren (groupedAgg hex lf vf gf records)) :
    gn.valueOf = none ∧
    gn.idOf ∈ jsKeys (groupedAgg hex lf vf gf records) ∧
    gn.childrenOf =
      some ((jsEntries (innerOf (groupedAgg hex lf vf gf records) gn.idOf)).map
        fun it => TreemapNode.node it.1 (some it.2.1) it.2.2 none) ∧
    gn.colorOf = gn.kids.head?.bind TreemapNode.colorOf := by
  obtain ⟨p, hp, rfl⟩ := List.mem_map.mp h
  have hpm := (mem_jsEntries _ _).mp hp
  have hkey : p.1 ∈ jsKeys (groupedAgg hex lf vf gf records) :=
    List.mem_map_of_mem Prod.fst hpm
  have hget := jsGet_eq_some_of_mem_nodup _ _ _
    (nodup_jsKeys_groupedAgg hex lf vf gf records) hpm
  have hinner : innerOf (groupedAgg hex lf vf gf records) p.1 = p.2 := by
    unfold innerOf
    rw [hget]
    rfl
  refine ⟨rfl, hkey, ?_, rfl⟩
  show some ((jsEntries p.2).map
      fun it => TreemapNode.node it.1 (some it.2.1) it.2.2 none) =
    some ((jsEntries (innerOf (groupedAgg hex lf vf gf records) p.1)).map
      fun it => TreemapNode.node it.1 (some it.2.1) it.2.2 none)
  rw [hinner]

theorem grouped_child_exists (hex : String → Option String) (lf vf gf : String)
    (records : List AirRecord) (g : String)
    (h : g ∈ jsKeys (groupedAgg hex lf vf gf records)) :
    ∃ gn ∈ groupedChildren (groupedAgg hex lf vf gf records), gn.idOf = g := by
  have hm : g ∈ jsKeys (jsEntries (groupedAgg hex lf vf gf records)) :=
    ((jsEntries_perm (groupedAgg hex lf vf gf records)).map Prod.fst).mem_iff.mpr h
  obtain ⟨p, hp, hp1⟩ := List.mem_map.mp hm
  exact ⟨_, List.mem_map_of_mem _ hp, hp1⟩

theorem grouped_leaf_struct (hex : String → Option String) (lf vf gf : String)
    (records : List AirRecord) (g : String) (c : TreemapNode)
    (hc : c ∈ (jsEntries (innerOf (groupedAgg hex lf vf gf records) g)).map
        fun it => TreemapNode.node it.1 (some it.2.1) it.2.2 none) :
    c.valueOf = some (((records.filter fun r =>
        decide (groupNameOf hex gf r = g ∧ jsLabel lf r = c.idOf)).map
      (recClamp vf)).sum) ∧
    c.childrenOf = none := by
  obtain ⟨it, hit, rfl⟩ := List.mem_map.mp hc
  refine ⟨?_, rfl⟩
  show some it.2.1 = _
  simp only [TreemapNode.idOf]
  have hitm := (mem_jsEntries _ _).mp hit
  have hget := jsGet_eq_some_of_mem_nodup _ _ _
    (nodup_innerKeys_groupedAgg hex lf vf gf records g) hitm
  have hval := entryVal_groupedAgg hex lf vf gf records g it.1
  have hev : entryVal (groupedAgg hex lf vf gf records) g it.1 = it.2.1 := by
    unfold entryVal
    rw [hget]
    rfl
  rw [hev] at hval
  rw [hval]

theorem grouped_leaf_exists (hex : String → Option String) (lf vf gf : String)
    (records : List AirRecord) (g lab : String)
    (h : lab ∈ jsKeys (innerOf (groupedAgg hex lf vf gf records) g)) :
    ∃ c ∈ (jsEntries (innerOf (groupedAgg hex lf vf gf records) g)).map
        (fun it => TreemapNode.node it.1 (some it.2.1) it.2.2 none), c.idOf = lab := by
  have hm : lab ∈ jsKeys (jsEntries (innerOf (groupedAgg hex lf vf gf records) g)) :=
    ((jsEntries_perm _).map Prod.fst).mem_iff.mpr h
  obtain ⟨p, hp, hp1⟩ := List.mem_map.mp hm
  exact ⟨_, List.mem_map_of_mem _ hp, hp1⟩

theorem grouped_childIds (hex : String → Option String) (lf vf gf : String)
    (records : List AirRecord) :
    (groupedChildren (groupedAgg hex lf vf gf records)).map TreemapNode.idOf =
      jsOrderKeys (seenFold [] (records.map (groupNameOf hex gf))) := by
  unfold groupedChildren
  rw [List.map_map]
  have h1 := jsKeys_jsEntries (groupedAgg hex lf vf gf records)
  simp only [jsKeys] at h1
  rw [show (TreemapNode.idOf ∘ fun gi : String × List (String × GroupEntry) =>
      TreemapNode.node gi.1 none
        ((((jsEntries gi.2).map fun it =>
            TreemapNode.node it.1 (some it.2.1) it.2.2 none).head?).bind
          TreemapNode.colorOf)
        (some ((jsEntries gi.2).map fun it =>
          TreemapNode.node it.1 (some it.2.1) it.2.2 none))) = Prod.fst from rfl]
  rw [h1, ← jsKeys_groupedAgg hex lf vf gf records]
  rfl

theorem strInsertIdx_perm (s : String) (l : List String) :
    (strInsertIdx s l).Perm (s :: l) := by
  induction l with
  | nil => simp [strInsertIdx]
  | cons t ts ih =>
    by_cases h : keyNum s ≤ keyNum t
    · simp [strInsertIdx, h]
    · simp only [strInsertIdx, if_neg h]
      exact (ih.cons t).trans (List.Perm.swap s t ts)

theorem strSortIdx_perm (l : List String) : (strSortIdx l).Perm l := by
  induction l with
  | nil => simp [strSortIdx]
  | cons s ss ih =>
    exact (strInsertIdx_perm s (strSortIdx ss)).trans (ih.cons s)

theorem jsOrderKeys_perm (ks : List String) : (jsOrderKeys ks).Perm ks := by
  unfold jsOrderKeys
  exact ((strSortIdx_perm _).append_right _).trans (List.filter_append_perm _ ks)

theorem nodup_jsOrderKeys (ks : List String) (h : ks.Nodup) :
    (jsOrderKeys ks).Nodup :=
  (jsOrderKeys_perm ks).nodup_iff.mpr h

theorem jsOrderKeys_eq_self (ks : List String)
    (h : ∀ k ∈ ks, isArrayIndexKey k = false) : jsOrderKeys ks = ks := by
  unfold jsOrderKeys
  have h1 : ks.filter isArrayIndexKey = [] := by
    rw [List.filter_eq_nil_iff]
    intro k hk
    rw [h k hk]
    simp
  have h2 : (ks.filter fun k => !isArrayIndexKey k) = ks := by
    rw [List.filter_eq_self]
    intro k hk
    rw [h k hk]
    rfl
  rw [h1, h2]
  rfl

theorem nodup_grouped_childIds (hex : String → Option String) (lf vf gf : String)
    (records : List AirRecord) :
    ((groupedChildren (groupedAgg hex lf vf gf records)).map
      TreemapNode.idOf).Nodup := by
  rw [grouped_childIds]
  exact nodup_jsOrderKeys _ (seenFold_nodup [] _ List.nodup_nil)

theorem grouped_inner_childIds (hex : String → Option String) (lf vf gf : String)
    (records : List AirRecord) (g : String) :
    ((jsEntries (innerOf (groupedAgg hex lf vf gf records) g)).map
        (fun it => TreemapNode.node it.1 (some it.2.1) it.2.2 none)).map
      TreemapNode.idOf =
      jsOrderKeys (seenFold [] ((records.filter fun r =>
        decide (groupNameOf hex gf r = g)).map (jsLabel lf))) := by
  rw [List.map_map]
  have h1 := jsKeys_jsEntries (innerOf (groupedAgg hex lf vf gf records) g)
  simp only [jsKeys] at h1
  rw [show (TreemapNode.idOf ∘ fun it : String × GroupEntry =>
      TreemapNode.node it.1 (some it.2.1) it.2.2 none) = Prod.fst from rfl]
  rw [h1]
  have h2 := innerKeys_groupedAgg hex lf vf gf records g
  simp only [jsKeys] at h2
  rw [h2]

theorem nodup_grouped_inner_childIds (hex : String → Option String)
    (lf vf gf : String) (records : List AirRecord) (g : String) :
    (((jsEntries (innerOf (groupedAgg hex lf vf gf records) g)).map
        (fun it => TreemapNode.node it.1 (some it.2.1) it.2.2 none)).map
      TreemapNode.idOf).Nodup := by
  rw [grouped_inner_childIds]
  exact nodup_jsOrderKeys _ (seenFold_nodup [] _ List.nodup_nil)

/-! ### Global shape of `treemapData` -/

theorem kids_of_some (i : String) (v : Option Int) (c : Option String)
    (l : List TreemapNode) : (TreemapNode.node i v c (some l)).kids = l := rfl

theorem treemapData_shape (hex : String → Option String) (lfo vfo gfo : Option String)
    (title : String) (records : List AirRecord) :
    treemapData hex lfo vfo gfo title records =
        TreemapNode.node title none none (some []) ∨
      (∃ lf vf, lfo = some lf ∧ vfo = some vf ∧ gfo = none ∧
        treemapData hex lfo vfo gfo title records =
          TreemapNode.node title none none
            (some (ungroupedChildren (ungroupedAgg lf vf records)))) ∨
      (∃ lf vf gf, lfo = some lf ∧ vfo = some vf ∧ gfo = some gf ∧
        treemapData hex lfo vfo gfo title records =
          TreemapNode.node title none none
            (some (groupedChildren (groupedAgg hex lf vf gf records)))) := by
  rcases lfo with _ | lf
  · left
    rcases vfo with _ | vf <;> rfl
  · rcases vfo with _ | vf
    · left
      rfl
    · rcases records with _ | ⟨r, rs⟩
      · left
        rcases gfo with _ | gf <;> rfl
      · rcases gfo with _ | gf
        · right
          left
          exact ⟨lf, vf, rfl, rfl, rfl, rfl⟩
        · right
          right
          exact ⟨lf, vf, gf, rfl, rfl, rfl, rfl⟩

theorem allNodesList_of_leaves (l : List TreemapNode)
    (h : ∀ x ∈ l, x.childrenOf = none) : allNodesList l = l := by
  induction l with
  | nil => rw [allNodesList]
  | cons t ts ih =>
    rw [allNodesList]
    have ht := h t (List.mem_cons_self t ts)
    cases t with
    | node i v c ch =>
      have hch : ch = none := ht
      subst hch
      rw [allNodes_none, ih (fun x hx => h x (List.mem_cons_of_mem _ hx))]
      rfl

theorem ungroupedChildren_childrenOf_none (m : List (String × Int))
    (x : TreemapNode) (h : x ∈ ungroupedChildren m) : x.childrenOf = none := by
  obtain ⟨p, _, rfl⟩ := List.mem_map.mp h
  rfl

theorem innerLeaves_childrenOf_none (items : List (String × GroupEntry))
    (x : TreemapNode)
    (h : x ∈ (jsEntries items).map
      fun it => TreemapNode.node it.1 (some it.2.1) it.2.2 none) :
    x.childrenOf = none := by
  obtain ⟨p, _, rfl⟩ := List.mem_map.mp h
  rfl

/-- Wellformedness of every node of any produced tree: leaves carry a
nonnegative value and no children key; all other nodes (the root and the
group branches) carry a children key and no value. -/
theorem treemapData_nodes_wf (hex : String → Option String)
    (lfo vfo gfo : Option String) (title : String) (records : List AirRecord) :
    ∀ n ∈ allNodes (treemapData hex lfo vfo gfo title records),
      ((n.valueOf).isSome ∧ n.childrenOf = none ∧ 0 ≤ (n.valueOf).getD 0) ∨
      (n.valueOf = none ∧ (n.childrenOf).isSome) := by
  rcases treemapData_shape hex lfo vfo gfo title records with
    heq | ⟨lf, vf, _, _, _, heq⟩ | ⟨lf, vf, gf, _, _, _, heq⟩
  · rw [heq]
    intro n hn
    rw [allNodes_some, allNodesList] at hn
    rcases List.mem_cons.mp hn with h | h
    · subst h
      exact Or.inr ⟨rfl, rfl⟩
    · exact absurd h (List.not_mem_nil n)
  · rw [heq]
    intro n hn
    rw [allNodes_some,
      allNodesList_of_leaves _
        (ungroupedChildren_childrenOf_none (ungroupedAgg lf vf records))] at hn
    rcases List.mem_cons.mp hn with h | h
    · subst h
      exact Or.inr ⟨rfl, rfl⟩
    · obtain ⟨hval, hch, _⟩ := ungrouped_child_struct lf vf records n h
      refine Or.inl ⟨by rw [hval]; rfl, hch, ?_⟩
      rw [hval]
      exact List.sum_nonneg fun x hx => by
        obtain ⟨r, _, rfl⟩ := List.mem_map.mp hx
        exact le_max_right _ 0
  · rw [heq]
    intro n hn
    rw [allNodes_some] at hn
    rcases List.mem_cons.mp hn with h | h
    · subst h
      exact Or.inr ⟨rfl, rfl⟩
    · rw [mem_allNodesList] at h
      obtain ⟨gn, hgn, hng⟩ := h
      obtain ⟨hval, _, hch, _⟩ :=
        grouped_child_struct hex lf vf gf records gn hgn
      cases gn with
      | node g v c ch =>
        have hv : v = none := hval
        have hc : ch = some ((jsEntries (innerOf (groupedAgg hex lf vf gf records)
            (TreemapNode.node g v c ch).idOf)).map
            fun it => TreemapNode.node it.1 (some it.2.1) it.2.2 none) := hch
        subst hv
        rw [hc, allNodes_some,
          allNodesList_of_leaves _
            (innerLeaves_childrenOf_none
              (innerOf (groupedAgg hex lf vf gf records)
                (TreemapNode.node g none c ch).idOf))] at hng
        rcases List.mem_cons.mp hng with h | h
        · subst h
          exact Or.inr ⟨rfl, rfl⟩
        · obtain ⟨hval2, hch2⟩ :=
            grouped_leaf_struct hex lf vf gf records
              (TreemapNode.node g none c ch).idOf n h
          refine Or.inl ⟨by rw [hval2]; rfl, hch2, ?_⟩
          rw [hval2]
          exact List.sum_nonneg fun x hx => by
            obtain ⟨r, _, rfl⟩ := List.mem_map.mp hx
            exact le_max_right _ 0

/-! ### Claims -/

theorem sum_recClamp_eq_filterMap (vf : String) (records : List AirRecord) :
    (records.map (recClamp vf)).sum =
      ((records.filterMap fun r =>
        match r.getCellValue vf with
        | CellValue.num v => some (max v 0)
        | _ => none)).sum := by
  induction records with
  | nil => rfl
  | cons r rs ih =>
    rw [List.map_cons, List.sum_cons, List.filterMap_cons]
    rcases hv : r.getCellValue vf with _ | v | s | ⟨n, c⟩ | _ <;>
      simp [hv, recClamp, cellNum, ih]

/-- Claim C1: with no group field set, the sum of the `value`s of the leaf
children of the returned root equals the sum of `max(rawValue, 0)` over the
records whose value cell holds a number; records whose value cell is missing
or non-numeric contribute 0 to this sum. -/
theorem claim_C1 (hex : String → Option String) (lf vf : String) (title : String)
    (records : List AirRecord) :
    (((treemapData hex (some lf) (some vf) none title records).kids).map
        (fun c => (c.valueOf).getD 0)).sum =
      ((records.filterMap fun r =>
        match r.getCellValue vf with
        | CellValue.num v => some (max v 0)
        | _ => none)).sum := by
  rw [← sum_recClamp_eq_filterMap]
  cases records with
  | nil => rfl
  | cons r rs =>
    rw [treemapData_ungrouped_eq hex lf vf title _ (List.cons_ne_nil r rs),
      kids_of_some]
    unfold ungroupedChildren
    rw [List.map_map]
    rw [show ((fun c => (TreemapNode.valueOf c).getD 0) ∘ fun p : String × Int =>
        TreemapNode.node p.1 (some p.2) none none) = Prod.snd from rfl]
    rw [((jsEntries_perm (ungroupedAgg lf vf (r :: rs))).map Prod.snd).sum_eq]
    exact valSum_ungroupedAgg lf vf (r :: rs)

/-- Claim C7: when the label field is unset, or the value field is unset, or
the record list is empty, the aggregator returns exactly the tree
`{id: rootTitle, children: []}`. -/
theorem claim_C7 (hex : String → Option String)
    (labelField valueField groupByField : Option String) (title : String)
    (records : List AirRecord)
    (h : labelField = none ∨ valueField = none ∨ records = []) :
    treemapData hex labelField valueField groupByField title records =
      TreemapNode.node title none none (some []) := by
  rcases h with h | h | h
  · subst h
    rcases valueField with _ | vf <;> rfl
  · subst h
    rcases labelField with _ | lf <;> rfl
  · subst h
    rcases labelField with _ | lf
    · rcases valueField with _ | vf <;> rfl
    · rcases valueField with _ | vf
      · rfl
      · rcases groupByField with _ | gf
        · rfl
        · rfl

theorem claim_C7_witness :
    ((none : Option String) = none ∨ (some "V" : Option String) = none ∨
      ([] : List AirRecord) = []) ∧
    treemapData hexWitness none (some "V") none "T" [] =
      TreemapNode.node "T" none none (some []) :=
  ⟨Or.inl rfl, claim_C7 hexWitness none (some "V") none "T" [] (Or.inl rfl)⟩

/-- Claim C8: in grouped mode, every group node's color equals the color of
the first child in its children sequence (absent when that child has no
color); it is never computed from any other child. -/
theorem claim_C8 (hex : String → Option String) (lf vf gf : String)
    (title : String) (records : List AirRecord) (gn : TreemapNode)
    (h : gn ∈ (treemapData hex (some lf) (some vf) (some gf) title records).kids) :
    gn.colorOf = gn.kids.head?.bind TreemapNode.colorOf := by
  cases records with
  | nil => exact absurd h (List.not_mem_nil gn)
  | cons r0 rs0 =>
    rw [treemapData_grouped_eq hex lf vf gf title _ (List.cons_ne_nil r0 rs0),
      kids_of_some] at h
    exact (grouped_child_struct hex lf vf gf (r0 :: rs0) gn h).2.2.2

theorem claim_C8_witness :
    (TreemapNode.node "G1" none (some "#2d7ff9")
        (some [TreemapNode.node "A" (some 15) (some "#2d7ff9") none])).colorOf =
      ((TreemapNode.node "G1" none (some "#2d7ff9")
        (some [TreemapNode.node "A" (some 15) (some "#2d7ff9") none])).kids.head?).bind
        TreemapNode.colorOf := by
  refine claim_C8 hexWitness "L" "V" "G" "T" witnessRecords _ ?_
  have hk : (treemapData hexWitness (some "L") (some "V") (some "G") "T"
      witnessRecords).kids =
      [TreemapNode.node "G1" none (some "#2d7ff9")
        (some [TreemapNode.node "A" (some 15) (some "#2d7ff9") none]),
       TreemapNode.node "G2" none none
        (some [TreemapNode.node "B" (some 0) none none])] := rfl
  rw [hk]
  exact List.mem_cons_self _ _

/-- Claim C10 (implicit): in grouped mode every emitted group node has a
non-empty children sequence — a group exists only because some record was
assigned to it. -/
theorem claim_C10 (hex : String → Option String) (lf vf gf : String)
    (title : String) (records : List AirRecord) (gn : TreemapNode)
    (h : gn ∈ (treemapData hex (some lf) (some vf) (some gf) title records).kids) :
    gn.kids ≠ [] := by
  cases records with
  | nil => exact absurd h (List.not_mem_nil gn)
  | cons r0 rs0 =>
    rw [treemapData_grouped_eq hex lf vf gf title _ (List.cons_ne_nil r0 rs0),
      kids_of_some] at h
    obtain ⟨_, hkey, hch, _⟩ := grouped_child_struct hex lf vf gf (r0 :: rs0) gn h
    have hkids : gn.kids =
        (jsEntries (innerOf (groupedAgg hex lf vf gf (r0 :: rs0)) gn.idOf)).map
          (fun it => TreemapNode.node it.1 (some it.2.1) it.2.2 none) := by
      unfold TreemapNode.kids
      rw [hch]
      rfl
    rw [hkids]
    obtain ⟨r, hr, hg⟩ :=
      (mem_jsKeys_groupedAgg hex lf vf gf (r0 :: rs0) gn.idOf).mp hkey
    have hlab : jsLabel lf r ∈
        jsKeys (innerOf (groupedAgg hex lf vf gf (r0 :: rs0)) gn.idOf) :=
      (mem_innerKeys_groupedAgg hex lf vf gf (r0 :: rs0) gn.idOf
        (jsLabel lf r)).mpr ⟨r, hr, hg, rfl⟩
    intro hnil
    have hil : jsEntries (innerOf (groupedAgg hex lf vf gf (r0 :: rs0)) gn.idOf)
        = [] := by
      cases hje : jsEntries (innerOf (groupedAgg hex lf vf gf (r0 :: rs0)) gn.idOf) with
      | nil => rfl
      | cons a l =>
        rw [hje] at hnil
        exact absurd hnil (by simp)
    have hin : innerOf (groupedAgg hex lf vf gf (r0 :: rs0)) gn.idOf = [] :=
      (jsEntries_eq_nil_iff _).mp hil
    rw [hin] at hlab
    exact absurd hlab (List.not_mem_nil _)

theorem claim_C10_witness :
    (TreemapNode.node "G1" none (some "#2d7ff9")
        (some [TreemapNode.node "A" (some 15) (some "#2d7ff9") none])).kids ≠ [] := by
  refine claim_C10 hexWitness "L" "V" "G" "T" witnessRecords _ ?_
  have hk : (treemapData hexWitness (some "L") (some "V") (some "G") "T"
      witnessRecords).kids =
      [TreemapNode.node "G1" none (some "#2d7ff9")
        (some [TreemapNode.node "A" (some 15) (some "#2d7ff9") none]),
       TreemapNode.node "G2" none none
        (some [TreemapNode.node "B" (some 0) none none])] := rfl
  rw [hk]
  exact List.mem_cons_self _ _

/-- Claim C2: records sharing an identical derived label (and, when grouping
is enabled, the same derived group name) are combined into exactly one node:
sibling ids are duplicate-free at every level, every leaf's value is the
summed clamped contribution of precisely the records mapping to it, and every
record is represented by a sibling carrying its label. -/
theorem claim_C2 (hex : String → Option String) (lf vf gf : String)
    (title : String) (records : List AirRecord) :
    (((treemapData hex (some lf) (some vf) none title records).kids.map
        TreemapNode.idOf).Nodup ∧
      (∀ c ∈ (treemapData hex (some lf) (some vf) none title records).kids,
        c.valueOf = some (((records.filter fun r =>
            decide (jsLabel lf r = c.idOf)).map (recClamp vf)).sum)) ∧
      (∀ r ∈ records,
        ∃ c ∈ (treemapData hex (some lf) (some vf) none title records).kids,
          c.idOf = jsLabel lf r)) ∧
    (((treemapData hex (some lf) (some vf) (some gf) title records).kids.map
        TreemapNode.idOf).Nodup ∧
      (∀ gn ∈ (treemapData hex (some lf) (some vf) (some gf) title records).kids,
        (gn.kids.map TreemapNode.idOf).Nodup ∧
        ∀ c ∈ gn.kids,
          c.valueOf = some (((records.filter fun r =>
              decide (groupNameOf hex gf r = gn.idOf ∧ jsLabel lf r = c.idOf)).map
            (recClamp vf)).sum)) ∧
      (∀ r ∈ records,
        ∃ gn ∈ (treemapData hex (some lf) (some vf) (some gf) title records).kids,
          gn.idOf = groupNameOf hex gf r ∧
          ∃ c ∈ gn.kids, c.idOf = jsLabel lf r)) := by
  cases records with
  | nil =>
    refine ⟨⟨List.Pairwise.nil, ?_, ?_⟩, List.Pairwise.nil, ?_, ?_⟩
    · intro c hc
      exact absurd hc (List.not_mem_nil c)
    · intro r hr
      exact absurd hr (List.not_mem_nil r)
    · intro gn hgn
      exact absurd hgn (List.not_mem_nil gn)
    · intro r hr
      exact absurd hr (List.not_mem_nil r)
  | cons r0 rs0 =>
    have hne : (r0 :: rs0 : List AirRecord) ≠ [] := List.cons_ne_nil r0 rs0
    constructor
    · rw [treemapData_ungrouped_eq hex lf vf title _ hne, kids_of_some]
      refine ⟨nodup_ungrouped_childIds lf vf _, ?_, ?_⟩
      · intro c hc
        exact (ungrouped_child_struct lf vf _ c hc).1
      · intro r hr
        exact ungrouped_child_exists lf vf (r0 :: rs0) (jsLabel lf r)
          ((mem_jsKeys_ungroupedAgg lf vf (r0 :: rs0) (jsLabel lf r)).mpr
            ⟨r, hr, rfl⟩)
    · rw [treemapData_grouped_eq hex lf vf gf title _ hne, kids_of_some]
      refine ⟨nodup_grouped_childIds hex lf vf gf _, ?_, ?_⟩
      · intro gn hgn
        obtain ⟨_, _, hch, _⟩ := grouped_child_struct hex lf vf gf _ gn hgn
        have hkids : gn.kids =
            (jsEntries (innerOf (groupedAgg hex lf vf gf (r0 :: rs0)) gn.idOf)).map
              (fun it => TreemapNode.node it.1 (some it.2.1) it.2.2 none) := by
          unfold TreemapNode.kids
          rw [hch]
          rfl
        constructor
        · rw [hkids]
          exact nodup_grouped_inner_childIds hex lf vf gf _ gn.idOf
        · intro c hc
          rw [hkids] at hc
          exact (grouped_leaf_struct hex lf vf gf _ gn.idOf c hc).1
      · intro r hr
        obtain ⟨gn, hgn, hgnid⟩ := grouped_child_exists hex lf vf gf (r0 :: rs0)
          (groupNameOf hex gf r)
          ((mem_jsKeys_groupedAgg hex lf vf gf (r0 :: rs0)
            (groupNameOf hex gf r)).mpr ⟨r, hr, rfl⟩)
        refine ⟨gn, hgn, hgnid, ?_⟩
        obtain ⟨_, _, hch, _⟩ := grouped_child_struct hex lf vf gf _ gn hgn
        have hkids : gn.kids =
            (jsEntries (innerOf (groupedAgg hex lf vf gf (r0 :: rs0)) gn.idOf)).map
              (fun it => TreemapNode.node it.1 (some it.2.1) it.2.2 none) := by
          unfold TreemapNode.kids
          rw [hch]
          rfl
        rw [hkids]
        exact grouped_leaf_exists hex lf vf gf (r0 :: rs0) gn.idOf (jsLabel lf r)
          ((mem_innerKeys_groupedAgg hex lf vf gf (r0 :: rs0) gn.idOf
            (jsLabel lf r)).mpr ⟨r, hr, hgnid.symm, rfl⟩)

theorem claim_C2_witness :
    ∃ c ∈ (treemapData hexWitness (some "L") (some "V") none "T"
        witnessRecords).kids, c.idOf = jsLabel "L" recA2 :=
  (claim_C2 hexWitness "L" "V" "G" "T" witnessRecords).1.2.2 recA2
    (List.mem_cons_of_mem _ (List.mem_cons_self _ _))

/-- Claim C3 is falsified by the code's use of plain JS objects: with labels
`"b"` then `"0"`, `Object.entries` lists the array-index key `"0"` first,
so the root children are not in first-seen order. -/
theorem claim_C3_counterexample :
    ((treemapData (fun _ => none) (some "L") (some "V") none "T"
        [recKeyB, recKeyZero]).kids.map TreemapNode.idOf) = ["0", "b"] ∧
    [recKeyB, recKeyZero].map (jsLabel "L") = ["b", "0"] ∧
    seenFold [] ([recKeyB, recKeyZero].map (jsLabel "L")) = ["b", "0"] ∧
    ((treemapData (fun _ => none) (some "L") (some "V") none "T"
        [recKeyB, recKeyZero]).kids.map TreemapNode.idOf) ≠
      seenFold [] ([recKeyB, recKeyZero].map (jsLabel "L")) := by
  refine ⟨?_, ?_, ?_, ?_⟩ <;> decide

/-- Claim C3 (amended): sibling order is the `Object.entries` order of the
first-seen key sequence: keys that are array-index strings (canonical
decimals below 2^32 - 1) come first in ascending numeric order, and the
remaining keys follow in the order first encountered while iterating the
records; when no derived label (or group name) is an array-index string this
is exactly first-seen order.  This holds for the root children in both modes
and for the label leaves within each group node. -/
theorem claim_C3_amended (hex : String → Option String) (lf vf gf : String)
    (title : String) (records : List AirRecord) :
    ((treemapData hex (some lf) (some vf) none title records).kids.map
        TreemapNode.idOf =
      jsOrderKeys (seenFold [] (records.map (jsLabel lf)))) ∧
    ((∀ k ∈ seenFold [] (records.map (jsLabel lf)), isArrayIndexKey k = false) →
      (treemapData hex (some lf) (some vf) none title records).kids.map
        TreemapNode.idOf = seenFold [] (records.map (jsLabel lf))) ∧
    ((treemapData hex (some lf) (some vf) (some gf) title records).kids.map
        TreemapNode.idOf =
      jsOrderKeys (seenFold [] (records.map (groupNameOf hex gf)))) ∧
    (∀ gn ∈ (treemapData hex (some lf) (some vf) (some gf) title records).kids,
      gn.kids.map TreemapNode.idOf =
        jsOrderKeys (seenFold [] ((records.filter fun r =>
          decide (groupNameOf hex gf r = gn.idOf)).map (jsLabel lf)))) := by
  have hbase : ∀ ks : List String,
      (∀ k ∈ ks, isArrayIndexKey k = false) → jsOrderKeys ks = ks :=
    fun ks h => jsOrderKeys_eq_self ks h
  cases records with
  | nil =>
    refine ⟨rfl, fun _ => rfl, rfl, ?_⟩
    intro gn hgn
    exact absurd hgn (List.not_mem_nil gn)
  | cons r0 rs0 =>
    have hne : (r0 :: rs0 : List AirRecord) ≠ [] := List.cons_ne_nil r0 rs0
    have hung : (treemapData hex (some lf) (some vf) none title (r0 :: rs0)).kids.map
        TreemapNode.idOf = jsOrderKeys (seenFold [] ((r0 :: rs0).map (jsLabel lf))) := by
      rw [treemapData_ungrouped_eq hex lf vf title _ hne, kids_of_some]
      exact ungrouped_childIds lf vf (r0 :: rs0)
    refine ⟨hung, ?_, ?_, ?_⟩
    · intro hnone
      rw [hung, hbase _ hnone]
    · rw [treemapData_grouped_eq hex lf vf gf title _ hne, kids_of_some]
      exact grouped_childIds hex lf vf gf (r0 :: rs0)
    · intro gn hgn
      rw [treemapData_grouped_eq hex lf vf gf title _ hne, kids_of_some] at hgn
      obtain ⟨_, _, hch, _⟩ := grouped_child_struct hex lf vf gf _ gn hgn
      have hkids : gn.kids =
          (jsEntries (innerOf (groupedAgg hex lf vf gf (r0 :: rs0)) gn.idOf)).map
            (fun it => TreemapNode.node it.1 (some it.2.1) it.2.2 none) := by
        unfold TreemapNode.kids
        rw [hch]
        rfl
      rw [hkids]
      exact grouped_inner_childIds hex lf vf gf (r0 :: rs0) gn.idOf

theorem claim_C3_amended_witness :
    ((treemapData hexWitness (some "L") (some "V") none "T"
        witnessRecords).kids.map TreemapNode.idOf =
      seenFold [] (witnessRecords.map (jsLabel "L"))) ∧
    ((TreemapNode.node "G1" none (some "#2d7ff9")
        (some [TreemapNode.node "A" (some 15) (some "#2d7ff9") none])).kids.map
      TreemapNode.idOf =
      jsOrderKeys (seenFold [] ((witnessRecords.filter fun r =>
        decide (groupNameOf hexWitness "G" r =
          (TreemapNode.node "G1" none (some "#2d7ff9")
            (some [TreemapNode.node "A" (some 15)
              (some "#2d7ff9") none])).idOf)).map (jsLabel "L")))) := by
  constructor
  · exact (claim_C3_amended hexWitness "L" "V" "G" "T" witnessRecords).2.1
      (by decide)
  · refine (claim_C3_amended hexWitness "L" "V" "G" "T" witnessRecords).2.2.2 _ ?_
    have hk : (treemapData hexWitness (some "L") (some "V") (some "G") "T"
        witnessRecords).kids =
        [TreemapNode.node "G1" none (some "#2d7ff9")
          (some [TreemapNode.node "A" (some 15) (some "#2d7ff9") none]),
         TreemapNode.node "G2" none none
          (some [TreemapNode.node "B" (some 0) none none])] := rfl
    rw [hk]
    exact List.mem_cons_self _ _

/-- Claim C4: a record's contribution to its leaf's summed value is
`max(v, 0)` when its value cell holds the number `v` and exactly 0 when the
value cell is missing or non-numeric; consequently every node value in any
output tree is nonnegative. -/
theorem claim_C4 (hex : String → Option String) (lfo vfo gfo : Option String)
    (vf : String) (title : String) (records : List AirRecord) (r : AirRecord) :
    (∀ v : Int, r.getCellValue vf = CellValue.num v → recClamp vf r = max v 0) ∧
    ((∀ v : Int, r.getCellValue vf ≠ CellValue.num v) → recClamp vf r = 0) ∧
    (∀ n ∈ allNodes (treemapData hex lfo vfo gfo title records),
      ∀ v : Int, n.valueOf = some v → 0 ≤ v) := by
  refine ⟨?_, ?_, ?_⟩
  · intro v hv
    unfold recClamp
    rw [hv]
    rfl
  · intro hnv
    unfold recClamp
    rcases hv : r.getCellValue vf with _ | v | s | ⟨n, c⟩ | _
    · simp [cellNum]
    · exact absurd hv (hnv v)
    · simp [cellNum]
    · simp [cellNum]
    · simp [cellNum]
  · intro n hn v hv
    rcases treemapData_nodes_wf hex lfo vfo gfo title records n hn with
      ⟨_, _, h0⟩ | ⟨hnone, _⟩
    · rw [hv] at h0
      simpa using h0
    · rw [hnone] at hv
      cases hv

theorem claim_C4_witness :
    recClamp "V" recB3 = max (-3) 0 ∧ recClamp "V" recEmptyLabel = 0 ∧
      (0 : Int) ≤ 15 := by
  refine ⟨?_, ?_, ?_⟩
  · exact (claim_C4 hexWitness (some "L") (some "V") none "V" "T" witnessRecords
      recB3).1 (-3) rfl
  · exact (claim_C4 hexWitness (some "L") (some "V") none "V" "T" witnessRecords
      recEmptyLabel).2.1 (fun v hv => CellValue.noConfusion hv)
  · refine (claim_C4 hexWitness (some "L") (some "V") none "V" "T" witnessRecords
      recA1).2.2 (TreemapNode.node "A" (some 15) none none) ?_ 15 rfl
    have ht : treemapData hexWitness (some "L") (some "V") none "T"
        witnessRecords =
        TreemapNode.node "T" none none
          (some [TreemapNode.node "A" (some 15) none none,
                 TreemapNode.node "B" (some 0) none none]) := rfl
    rw [ht, allNodes_some]
    refine List.mem_cons_of_mem _ ?_
    rw [allNodesList, allNodes_none]
    exact List.mem_append.mpr (Or.inl (List.mem_singleton.mpr rfl))

/-- Claim C5: every produced tree is structurally wellformed: the root has a
children sequence (possibly empty) and no value; every node of the tree
either is a leaf (a value, no children key) or a branch/root (a children
key, no value). -/
theorem claim_C5 (hex : String → Option String) (lfo vfo gfo : Option String)
    (title : String) (records : List AirRecord) :
    (treemapData hex lfo vfo gfo title records).valueOf = none ∧
    ((treemapData hex lfo vfo gfo title records).childrenOf).isSome ∧
    ∀ n ∈ allNodes (treemapData hex lfo vfo gfo title records),
      ((n.valueOf).isSome ∧ n.childrenOf = none) ∨
      (n.valueOf = none ∧ (n.childrenOf).isSome) := by
  refine ⟨?_, ?_, ?_⟩
  · rcases treemapData_shape hex lfo vfo gfo title records with
      heq | ⟨lf, vf, _, _, _, heq⟩ | ⟨lf, vf, gf, _, _, _, heq⟩ <;> rw [heq] <;> rfl
  · rcases treemapData_shape hex lfo vfo gfo title records with
      heq | ⟨lf, vf, _, _, _, heq⟩ | ⟨lf, vf, gf, _, _, _, heq⟩ <;> rw [heq] <;> rfl
  · intro n hn
    rcases treemapData_nodes_wf hex lfo vfo gfo title records n hn with
      ⟨h1, h2, _⟩ | h
    · exact Or.inl ⟨h1, h2⟩
    · exact Or.inr h

theorem claim_C5_witness :
    (((TreemapNode.node "A" (some 15) none none).valueOf).isSome ∧
      (TreemapNode.node "A" (some 15) none none).childrenOf = none) ∨
    ((TreemapNode.node "A" (some 15) none none).valueOf = none ∧
      ((TreemapNode.node "A" (some 15) none none).childrenOf).isSome) := by
  refine (claim_C5 hexWitness (some "L") (some "V") none "T"
    witnessRecords).2.2 (TreemapNode.node "A" (some 15) none none) ?_
  have ht : treemapData hexWitness (some "L") (some "V") none "T"
      witnessRecords =
      TreemapNode.node "T" none none
        (some [TreemapNode.node "A" (some 15) none none,
               TreemapNode.node "B" (some 0) none none]) := rfl
  rw [ht, allNodes_some]
  refine List.mem_cons_of_mem _ ?_
  rw [allNodesList, allNodes_none]
  exact List.mem_append.mpr (Or.inl (List.mem_singleton.mpr rfl))

/-- Claim C6: with a group-by field set, the group name of a record is the
tag's `name` when the group cell is a structured tag (its truthy `color`
resolving through the color resolver), the string itself when the cell is a
plain string, and `"Ungrouped"` with no color otherwise; the record is
aggregated under that group. -/
theorem claim_C6 (hex : String → Option String) (lf vf gf : String)
    (title : String) (records : List AirRecord) (r : AirRecord)
    (hr : r ∈ records) :
    (∀ name color, r.getCellValue gf = CellValue.tag name color →
      groupNameOf hex gf r = name ∧
      ∀ c, color = some c → c ≠ "" →
        (deriveGroup hex (r.getCellValue gf)).2 = hex c) ∧
    (∀ s, r.getCellValue gf = CellValue.str s → groupNameOf hex gf r = s) ∧
    ((∀ name color, r.getCellValue gf ≠ CellValue.tag name color) →
      (∀ s, r.getCellValue gf ≠ CellValue.str s) →
      groupNameOf hex gf r = "Ungrouped" ∧
      (deriveGroup hex (r.getCellValue gf)).2 = none) ∧
    (∃ gn ∈ (treemapData hex (some lf) (some vf) (some gf) title records).kids,
      gn.idOf = groupNameOf hex gf r ∧ ∃ c ∈ gn.kids, c.idOf = jsLabel lf r) := by
  refine ⟨?_, ?_, ?_, ?_⟩
  · intro name color h
    constructor
    · unfold groupNameOf
      rw [h]
      rfl
    · intro c hc hcne
      rw [h, hc]
      simp [deriveGroup, hcne]
  · intro s h
    unfold groupNameOf
    rw [h]
    rfl
  · intro hnt hns
    rcases hv : r.getCellValue gf with _ | v | s | ⟨n, c⟩ | _
    · exact ⟨by unfold groupNameOf; rw [hv]; rfl, rfl⟩
    · exact ⟨by unfold groupNameOf; rw [hv]; rfl, rfl⟩
    · exact absurd hv (hns s)
    · exact absurd hv (hnt n c)
    · exact ⟨by unfold groupNameOf; rw [hv]; rfl, rfl⟩
  · cases records with
    | nil => exact absurd hr (List.not_mem_nil r)
    | cons r0 rs0 =>
      rw [treemapData_grouped_eq hex lf vf gf title _ (List.cons_ne_nil r0 rs0),
        kids_of_some]
      obtain ⟨gn, hgn, hgnid⟩ := grouped_child_exists hex lf vf gf (r0 :: rs0)
        (groupNameOf hex gf r)
        ((mem_jsKeys_groupedAgg hex lf vf gf (r0 :: rs0)
          (groupNameOf hex gf r)).mpr ⟨r, hr, rfl⟩)
      refine ⟨gn, hgn, hgnid, ?_⟩
      obtain ⟨_, _, hch, _⟩ := grouped_child_struct hex lf vf gf _ gn hgn
      have hkids : gn.kids =
          (jsEntries (innerOf (groupedAgg hex lf vf gf (r0 :: rs0)) gn.idOf)).map
            (fun it => TreemapNode.node it.1 (some it.2.1) it.2.2 none) := by
        unfold TreemapNode.kids
        rw [hch]
        rfl
      rw [hkids]
      exact grouped_leaf_exists hex lf vf gf (r0 :: rs0) gn.idOf (jsLabel lf r)
        ((mem_innerKeys_groupedAgg hex lf vf gf (r0 :: rs0) gn.idOf
          (jsLabel lf r)).mpr ⟨r, hr, hgnid.symm, rfl⟩)

theorem claim_C6_witness :
    groupNameOf hexWitness "G" recA1 = "G1" ∧
    (deriveGroup hexWitness (recA1.getCellValue "G")).2 = hexWitness "blue" := by
  have h := claim_C6 hexWitness "L" "V" "G" "T" witnessRecords recA1
    (List.mem_cons_self _ _)
  obtain ⟨hname, hcol⟩ := h.1 "G1" (some "blue") rfl
  exact ⟨hname, hcol "blue" rfl (by decide)⟩

/-- Claim C9: malformed cells never raise an error but degrade to defaults:
a record whose label renders as the empty string is aggregated under
`"Unnamed"` (in both modes), and a missing or non-numeric value cell
contributes exactly 0. -/
theorem claim_C9 (hex : String → Option String) (lf vf gf : String)
    (title : String) (records : List AirRecord) (r : AirRecord)
    (hr : r ∈ records) (hlab : r.getCellValueAsString lf = "") :
    jsLabel lf r = "Unnamed" ∧
    (∃ c ∈ (treemapData hex (some lf) (some vf) none title records).kids,
      c.idOf = "Unnamed") ∧
    (∃ gn ∈ (treemapData hex (some lf) (some vf) (some gf) title records).kids,
      gn.idOf = groupNameOf hex gf r ∧ ∃ c ∈ gn.kids, c.idOf = "Unnamed") ∧
    ((∀ v : Int, r.getCellValue vf ≠ CellValue.num v) → recClamp vf r = 0) := by
  have hUn : jsLabel lf r = "Unnamed" := by
    unfold jsLabel
    rw [hlab]
    rfl
  refine ⟨hUn, ?_, ?_, ?_⟩
  · cases records with
    | nil => exact absurd hr (List.not_mem_nil r)
    | cons r0 rs0 =>
      rw [treemapData_ungrouped_eq hex lf vf title _ (List.cons_ne_nil r0 rs0),
        kids_of_some]
      exact ungrouped_child_exists lf vf (r0 :: rs0) "Unnamed"
        ((mem_jsKeys_ungroupedAgg lf vf (r0 :: rs0) "Unnamed").mpr ⟨r, hr, hUn⟩)
  · cases records with
    | nil => exact absurd hr (List.not_mem_nil r)
    | cons r0 rs0 =>
      rw [treemapData_grouped_eq hex lf vf gf title _ (List.cons_ne_nil r0 rs0),
        kids_of_some]
      obtain ⟨gn, hgn, hgnid⟩ := grouped_child_exists hex lf vf gf (r0 :: rs0)
        (groupNameOf hex gf r)
        ((mem_jsKeys_groupedAgg hex lf vf gf (r0 :: rs0)
          (groupNameOf hex gf r)).mpr ⟨r, hr, rfl⟩)
      refine ⟨gn, hgn, hgnid, ?_⟩
      obtain ⟨_, _, hch, _⟩ := grouped_child_struct hex lf vf gf _ gn hgn
      have hkids : gn.kids =
          (jsEntries (innerOf (groupedAgg hex lf vf gf (r0 :: rs0)) gn.idOf)).map
            (fun it => TreemapNode.node it.1 (some it.2.1) it.2.2 none) := by
        unfold TreemapNode.kids
        rw [hch]
        rfl
      rw [hkids]
      exact grouped_leaf_exists hex lf vf gf (r0 :: rs0) gn.idOf "Unnamed"
        ((mem_innerKeys_groupedAgg hex lf vf gf (r0 :: rs0) gn.idOf
          "Unnamed").mpr ⟨r, hr, hgnid.symm, hUn⟩)
  · intro hnv
    unfold recClamp
    rcases hv : r.getCellValue vf with _ | v | s | ⟨n, c⟩ | _
    · simp [cellNum]
    · exact absurd hv (hnv v)
    · simp [cellNum]
    · simp [cellNum]
    · simp [cellNum]

theorem claim_C9_witness :
    jsLabel "L" recEmptyLabel = "Unnamed" ∧ recClamp "V" recEmptyLabel = 0 := by
  have h := claim_C9 hexWitness "L" "V" "G" "T" witnessRecords2 recEmptyLabel
    (List.mem_cons_self _ _) rfl
  exact ⟨h.1, h.2.2.2 (fun v hv => CellValue.noConfusion hv)⟩
